import Mathlib

/-!
Verification development for the geolocation distance-and-ranking core of
the react-geolocation repository (src/src/App.jsx).

JavaScript numbers are embedded as real numbers.  `Math.atan2` is embedded
by its mathematical case analysis.  `Array.prototype.reduce` called with no
initial accumulator is embedded as a function into `Except String`, since
the JavaScript method throws a TypeError on an empty array.
-/

/-- A marker object as fetched from the API: id, name, address, latitude,
longitude and the printers metadata field, as read by App.jsx. -/
structure Point where
  id : Nat
  name : String
  address : String
  latitude : ℝ
  longitude : ℝ
  printers : String

/-- An element of the `newDistances` array built in the ranking effect of
App.jsx: the marker's own fields spread unchanged, plus the duplicated
`geocode` pair and the computed `distance` in kilometers. -/
structure RankedPoint where
  id : Nat
  name : String
  address : String
  latitude : ℝ
  longitude : ℝ
  printers : String
  geocode : ℝ × ℝ
  distance : ℝ

/-- The observer state of App.jsx: the `position` pair and the
`locationEnabled` flag. -/
structure ObserverState where
  position : ℝ × ℝ
  enabled : Bool

/-- The `toRad` helper of `haversineDistance`: `(x * Math.PI) / 180`. -/
noncomputable def toRad (x : ℝ) : ℝ := x * Real.pi / 180

/-- The mathematical case analysis of JavaScript `Math.atan2 (y, x)`. -/
noncomputable def atan2 (y x : ℝ) : ℝ :=
  if 0 < x then Real.arctan (y / x)
  else if x < 0 then
    (if 0 ≤ y then Real.arctan (y / x) + Real.pi
     else Real.arctan (y / x) - Real.pi)
  else
    (if 0 < y then Real.pi / 2
     else if y < 0 then -(Real.pi / 2)
     else 0)

/-- The `haversineDistance` function of App.jsx, line for line: coordinates
are `[lat, lon]` pairs in degrees, the radius is 6371 km. -/
noncomputable def haversineDistance (coords1 coords2 : ℝ × ℝ) : ℝ :=
  let lat1 := coords1.1
  let lon1 := coords1.2
  let lat2 := coords2.1
  let lon2 := coords2.2
  let R : ℝ := 6371
  let dLat := toRad (lat2 - lat1)
  let dLon := toRad (lon2 - lon1)
  let a := Real.sin (dLat / 2) * Real.sin (dLat / 2) +
    Real.cos (toRad lat1) * Real.cos (toRad lat2) *
      Real.sin (dLon / 2) * Real.sin (dLon / 2)
  let c := 2 * atan2 (Real.sqrt a) (Real.sqrt (1 - a))
  let d := R * c
  d

/-- The haversine algorithm exactly as the specification words it: convert
both coordinates to radians first, take the differences of the radian
values, form sin²(Δlat/2) + cos(lat1)·cos(lat2)·sin²(Δlon/2), then the
central angle 2·atan2(√a, √(1−a)), scaled by R = 6371. -/
noncomputable def distanceSpec (p q : ℝ × ℝ) : ℝ :=
  let lat1 := toRad p.1
  let lon1 := toRad p.2
  let lat2 := toRad q.1
  let lon2 := toRad q.2
  let dLat := lat2 - lat1
  let dLon := lon2 - lon1
  let a := Real.sin (dLat / 2) ^ 2 +
    Real.cos lat1 * Real.cos lat2 * Real.sin (dLon / 2) ^ 2
  let c := 2 * atan2 (Real.sqrt a) (Real.sqrt (1 - a))
  6371 * c

/-- One element of the `markers.map` in the ranking effect of App.jsx:
spread the marker, duplicate its coordinate as `geocode`, and set
`distance` to the haversine distance from the observer when
`locationEnabled` holds and to 0 otherwise. -/
noncomputable def annotate (obs : ObserverState) (marker : Point) : RankedPoint :=
  { id := marker.id
    name := marker.name
    address := marker.address
    latitude := marker.latitude
    longitude := marker.longitude
    printers := marker.printers
    geocode := (marker.latitude, marker.longitude)
    distance :=
      if obs.enabled then
        haversineDistance obs.position (marker.latitude, marker.longitude)
      else 0 }

/-- The `newDistances` array of the ranking effect: `markers.map (...)`. -/
noncomputable def rankedOf (markers : List Point) (obs : ObserverState) :
    List RankedPoint :=
  markers.map (annotate obs)

/-- The reducer `(prev, curr) => prev.distance < curr.distance ? prev : curr`
of the nearest-marker fold in App.jsx. -/
noncomputable def pickNearest (prev curr : RankedPoint) : RankedPoint :=
  if prev.distance < curr.distance then prev else curr

/-- JavaScript `Array.prototype.reduce` with no initial accumulator: on an
empty array it throws a TypeError, otherwise it folds left starting from
the first element. -/
def jsReduce {α : Type} (f : α → α → α) : List α → Except String α
  | [] => Except.error "TypeError: Reduce of empty array with no initial value"
  | x :: xs => Except.ok (xs.foldl f x)

/-- The ranking effect of App.jsx as a pure function: build `newDistances`,
then, when `locationEnabled` holds, reduce it to the nearest marker (which
throws on an empty array), otherwise set the nearest marker to null. -/
noncomputable def rank (markers : List Point) (obs : ObserverState) :
    Except String (List RankedPoint × Option RankedPoint) :=
  let newDistances := rankedOf markers obs
  if obs.enabled then
    match jsReduce pickNearest newDistances with
    | Except.ok nearest => Except.ok (newDistances, some nearest)
    | Except.error e => Except.error e
  else
    Except.ok (newDistances, none)

/-- Concrete marker used in witnesses. -/
def wPoint : Point := { id := 7, name := "W", address := "addr", latitude := 1, longitude := 2, printers := "0" }

/-- Observer with no fix yet (enabled = false), used in witnesses. -/
def wObsOff : ObserverState := { position := (0, 0), enabled := false }

/-- Observer with a fix (enabled = true), used in witnesses. -/
def wObsOn : ObserverState := { position := (3, 4), enabled := true }

/-- First of two markers at the same coordinates, for the tie case. -/
def ctrP1 : Point := { id := 1, name := "A", address := "a1", latitude := 10, longitude := 20, printers := "p" }

/-- Second of two markers at the same coordinates, for the tie case. -/
def ctrP2 : Point := { id := 2, name := "B", address := "a2", latitude := 10, longitude := 20, printers := "p" }

/-- Enabled observer for the tie case. -/
def ctrObs : ObserverState := { position := (0, 0), enabled := true }

lemma foldl_pickNearest_spec (l : List RankedPoint) (a : RankedPoint) :
    ∃ l₁ l₂, a :: l = l₁ ++ (l.foldl pickNearest a) :: l₂ ∧
      (∀ x ∈ l₁, (l.foldl pickNearest a).distance ≤ x.distance) ∧
      ∀ x ∈ l₂, (l.foldl pickNearest a).distance < x.distance := by
  induction l generalizing a with
  | nil => exact ⟨[], [], rfl, by simp, by simp⟩
  | cons x xs ih =>
    rw [List.foldl_cons]
    by_cases h : a.distance < x.distance
    · have hax : pickNearest a x = a := by simp [pickNearest, h]
      obtain ⟨l₁, l₂, heq, hle, hlt⟩ := ih (pickNearest a x)
      rw [hax] at heq hle hlt
      rw [hax]
      cases l₁ with
      | nil =>
        simp only [List.nil_append] at heq
        obtain ⟨ha, hxs⟩ := List.cons.inj heq
        refine ⟨[], x :: xs, by rw [List.nil_append, ← ha], by simp, ?_⟩
        intro y hy
        rcases List.mem_cons.mp hy with hy | hy
        · subst hy; rw [← ha]; exact h
        · exact hlt y (hxs ▸ hy)
      | cons b t =>
        simp only [List.cons_append] at heq
        obtain ⟨hab, hxs⟩ := List.cons.inj heq
        refine ⟨a :: x :: t, l₂, ?_, ?_, hlt⟩
        · simp only [List.cons_append]
          rw [← hxs]
        · intro y hy
          have hra : (xs.foldl pickNearest a).distance ≤ a.distance := by
            have := hle b (List.mem_cons_self b t)
            rw [← hab] at this
            exact this
          rcases List.mem_cons.mp hy with hy | hy
          · subst hy; exact hra
          rcases List.mem_cons.mp hy with hy | hy
          · subst hy; exact le_of_lt (lt_of_le_of_lt hra h)
          · exact hle y (List.mem_cons_of_mem b hy)
    · have hax : pickNearest a x = x := by simp [pickNearest, h]
      have hxa : x.distance ≤ a.distance := not_lt.mp h
      obtain ⟨l₁, l₂, heq, hle, hlt⟩ := ih (pickNearest a x)
      rw [hax] at heq hle hlt
      rw [hax]
      cases l₁ with
      | nil =>
        simp only [List.nil_append] at heq
        obtain ⟨hx, hxs⟩ := List.cons.inj heq
        refine ⟨[a], l₂, ?_, ?_, hlt⟩
        · rw [List.cons_append, List.nil_append, ← hx, ← hxs]
        · intro y hy
          simp only [List.mem_singleton] at hy
          subst hy
          rw [← hx]
          exact hxa
      | cons b t =>
        simp only [List.cons_append] at heq
        obtain ⟨hxb, hxs⟩ := List.cons.inj heq
        refine ⟨a :: b :: t, l₂, ?_, ?_, hlt⟩
        · simp only [List.cons_append]
          rw [← hxs, ← hxb]
        · intro y hy
          rcases List.mem_cons.mp hy with hy | hy
          · subst hy
            exact le_trans (hle b (List.mem_cons_self b t)) (hxb ▸ hxa)
          · exact hle y hy

lemma rank_enabled_cons (m : Point) (ms : List Point) (obs : ObserverState)
    (hen : obs.enabled = true) :
    rank (m :: ms) obs =
      Except.ok (rankedOf (m :: ms) obs,
        some ((List.map (annotate obs) ms).foldl pickNearest (annotate obs m))) := by
  simp [rank, hen, rankedOf, jsReduce]

/-- Claim C1 (amended): with an enabled observer and a non-empty point list,
the nearest marker is an element of the ranked list that is weakly minimal
against everything before it and strictly minimal against everything after
it — so when several points tie for the minimal distance, the one that
appears last in input order wins, because the reducer keeps the current
best only on a strict less-than. -/
theorem rank_tie_last_wins (markers : List Point) (obs : ObserverState)
    (hne : markers ≠ []) (hen : obs.enabled = true) :
    ∃ r l₁ l₂,
      rank markers obs = Except.ok (rankedOf markers obs, some r) ∧
      rankedOf markers obs = l₁ ++ r :: l₂ ∧
      (∀ x ∈ l₁, r.distance ≤ x.distance) ∧
      ∀ x ∈ l₂, r.distance < x.distance := by
  cases markers with
  | nil => exact absurd rfl hne
  | cons m ms =>
    obtain ⟨l₁, l₂, heq, hle, hlt⟩ :=
      foldl_pickNearest_spec (List.map (annotate obs) ms) (annotate obs m)
    refine ⟨_, l₁, l₂, rank_enabled_cons m ms obs hen, ?_, hle, hlt⟩
    simpa [rankedOf] using heq

/-- Witness for the amended claim C1 at two markers sharing a coordinate. -/
theorem rank_tie_last_wins_witness :
    ([ctrP1, ctrP2] : List Point) ≠ [] ∧ ctrObs.enabled = true ∧
    (∃ r l₁ l₂,
      rank [ctrP1, ctrP2] ctrObs =
        Except.ok (rankedOf [ctrP1, ctrP2] ctrObs, some r) ∧
      rankedOf [ctrP1, ctrP2] ctrObs = l₁ ++ r :: l₂ ∧
      (∀ x ∈ l₁, r.distance ≤ x.distance) ∧
      ∀ x ∈ l₂, r.distance < x.distance) :=
  ⟨by simp, rfl, rank_tie_last_wins [ctrP1, ctrP2] ctrObs (by simp) rfl⟩

/-- Counterexample to claim C1 as stated: two markers at the same
coordinates tie for the minimal distance, yet `rank` returns the second of
them as nearest, not the one that appears first in input order. -/
theorem rank_tie_first_counterexample :
    (annotate ctrObs ctrP1).distance = (annotate ctrObs ctrP2).distance ∧
    rank [ctrP1, ctrP2] ctrObs =
      Except.ok ([annotate ctrObs ctrP1, annotate ctrObs ctrP2],
        some (annotate ctrObs ctrP2)) ∧
    annotate ctrObs ctrP2 ≠ annotate ctrObs ctrP1 := by
  refine ⟨rfl, ?_, ?_⟩
  · have hd : ¬ (annotate ctrObs ctrP1).distance < (annotate ctrObs ctrP2).distance := by
      have he : (annotate ctrObs ctrP1).distance = (annotate ctrObs ctrP2).distance := rfl
      rw [he]
      exact lt_irrefl _
    have hen : ctrObs.enabled = true := rfl
    simp [rank, rankedOf, jsReduce, pickNearest, hd, hen]
  · intro hcontra
    have hid : (annotate ctrObs ctrP2).id = (annotate ctrObs ctrP1).id := by
      rw [hcontra]
    simp [annotate, ctrP1, ctrP2] at hid

/-- Claim C2 (failing input): with the observer enabled and an empty marker
list, the reduce of the ranking effect runs on an empty array with no
initial accumulator and throws a TypeError instead of returning
([], null). -/
theorem rank_empty_enabled_raises :
    rank [] ctrObs =
      Except.error "TypeError: Reduce of empty array with no initial value" := rfl

/-- Claim C3: the list component of any successful `rank` result is
`rankedOf`, whose length equals the input length and whose i-th element is
the annotation of the i-th input point — an order-preserving map, not a
sort. -/
theorem rank_preserves_length_order (markers : List Point) (obs : ObserverState) :
    (∀ out, rank markers obs = Except.ok out → out.1 = rankedOf markers obs) ∧
    (rankedOf markers obs).length = markers.length ∧
    ∀ i : Nat, (rankedOf markers obs)[i]? = (markers[i]?).map (annotate obs) := by
  refine ⟨?_, by simp [rankedOf], ?_⟩
  · intro out hout
    by_cases hen : obs.enabled
    · simp only [rank, hen, if_true] at hout
      cases hjr : jsReduce pickNearest (rankedOf markers obs) with
      | ok n =>
        rw [hjr] at hout
        cases hout
        rfl
      | error e =>
        rw [hjr] at hout
        cases hout
    · simp only [rank, hen, if_false] at hout
      cases hout
      rfl
  · intro i
    simp [rankedOf]

/-- Witness for claim C3 at a concrete marker list and disabled observer. -/
theorem rank_preserves_length_order_witness :
    rank [wPoint] wObsOff = Except.ok (rankedOf [wPoint] wObsOff, none) ∧
    (rankedOf [wPoint] wObsOff, (none : Option RankedPoint)).1 =
      rankedOf [wPoint] wObsOff :=
  ⟨rfl, (rank_preserves_length_order [wPoint] wObsOff).1
    (rankedOf [wPoint] wObsOff, none) rfl⟩

/-- Claim C4: with a non-empty point list and an enabled observer, the
nearest marker returned by `rank` is an element of the ranked list and its
distance is less than or equal to the distance of every ranked element. -/
theorem rank_nearest_mem_min (markers : List Point) (obs : ObserverState)
    (hne : markers ≠ []) (hen : obs.enabled = true) :
    ∃ r, rank markers obs = Except.ok (rankedOf markers obs, some r) ∧
      r ∈ rankedOf markers obs ∧
      ∀ x ∈ rankedOf markers obs, r.distance ≤ x.distance := by
  cases markers with
  | nil => exact absurd rfl hne
  | cons m ms =>
    obtain ⟨l₁, l₂, heq, hle, hlt⟩ :=
      foldl_pickNearest_spec (List.map (annotate obs) ms) (annotate obs m)
    have hdec : rankedOf (m :: ms) obs =
        l₁ ++ (List.map (annotate obs) ms).foldl pickNearest (annotate obs m) :: l₂ := by
      simpa [rankedOf] using heq
    refine ⟨_, rank_enabled_cons m ms obs hen, ?_, ?_⟩
    · rw [hdec]
      exact List.mem_append_right l₁ (List.mem_cons_self _ l₂)
    · intro x hx
      rw [hdec] at hx
      rcases List.mem_append.mp hx with hx | hx
      · exact hle x hx
      rcases List.mem_cons.mp hx with hx | hx
      · rw [hx]
      · exact le_of_lt (hlt x hx)

/-- Witness for claim C4 at a concrete one-marker list, enabled observer. -/
theorem rank_nearest_mem_min_witness :
    ([wPoint] : List Point) ≠ [] ∧ wObsOn.enabled = true ∧
    (∃ r, rank [wPoint] wObsOn = Except.ok (rankedOf [wPoint] wObsOn, some r) ∧
      r ∈ rankedOf [wPoint] wObsOn ∧
      ∀ x ∈ rankedOf [wPoint] wObsOn, r.distance ≤ x.distance) :=
  ⟨by simp, rfl, rank_nearest_mem_min [wPoint] wObsOn (by simp) rfl⟩

/-- Claim C5: when the observer is not enabled, every ranked element has
distance 0 and `rank` returns a null nearest marker. -/
theorem rank_disabled (markers : List Point) (obs : ObserverState)
    (h : obs.enabled = false) :
    rank markers obs = Except.ok (rankedOf markers obs, none) ∧
    ∀ x ∈ rankedOf markers obs, x.distance = 0 := by
  constructor
  · simp [rank, h]
  · intro x hx
    simp only [rankedOf, List.mem_map] at hx
    obtain ⟨p, hp, rfl⟩ := hx
    simp [annotate, h]

/-- Witness for claim C5 at a concrete marker list, disabled observer. -/
theorem rank_disabled_witness :
    wObsOff.enabled = false ∧
    (rank [wPoint] wObsOff = Except.ok (rankedOf [wPoint] wObsOff, none) ∧
      ∀ x ∈ rankedOf [wPoint] wObsOff, x.distance = 0) :=
  ⟨rfl, rank_disabled [wPoint] wObsOff rfl⟩

/-- Claim C9: the i-th ranked element carries every field of the i-th input
point unmodified — id, name, address, printers metadata and both
coordinate components — and only adds the duplicated `geocode` pair and
the computed `distance`. -/
theorem ranked_fields_preserved (markers : List Point) (obs : ObserverState)
    (i : Nat) (p : Point) (hp : markers[i]? = some p) :
    ∃ r, (rankedOf markers obs)[i]? = some r ∧
      r.id = p.id ∧ r.name = p.name ∧ r.address = p.address ∧
      r.printers = p.printers ∧ r.latitude = p.latitude ∧
      r.longitude = p.longitude ∧ r.geocode = (p.latitude, p.longitude) ∧
      r.distance = (if obs.enabled then
        haversineDistance obs.position (p.latitude, p.longitude) else 0) := by
  refine ⟨annotate obs p, ?_, rfl, rfl, rfl, rfl, rfl, rfl, rfl, rfl⟩
  simp [rankedOf, hp]

/-- Witness for claim C9 at a concrete marker list and index 0. -/
theorem ranked_fields_preserved_witness :
    ([wPoint] : List Point)[0]? = some wPoint ∧
    (∃ r, (rankedOf [wPoint] wObsOn)[0]? = some r ∧
      r.id = wPoint.id ∧ r.name = wPoint.name ∧ r.address = wPoint.address ∧
      r.printers = wPoint.printers ∧ r.latitude = wPoint.latitude ∧
      r.longitude = wPoint.longitude ∧
      r.geocode = (wPoint.latitude, wPoint.longitude) ∧
      r.distance = (if wObsOn.enabled then
        haversineDistance wObsOn.position (wPoint.latitude, wPoint.longitude)
        else 0)) :=
  ⟨rfl, ranked_fields_preserved [wPoint] wObsOn 0 wPoint rfl⟩

/-- Claim C10: with a non-empty point list and an enabled observer the
nearest-marker fold is total — the empty-array error branch of the reduce
is unreachable and `rank` returns a defined nearest marker. -/
theorem rank_total_nonempty (markers : List Point) (obs : ObserverState)
    (hne : markers ≠ []) (hen : obs.enabled = true) :
    ∃ n, rank markers obs = Except.ok (rankedOf markers obs, some n) := by
  cases markers with
  | nil => exact absurd rfl hne
  | cons m ms => exact ⟨_, rank_enabled_cons m ms obs hen⟩

/-- Witness for claim C10 at a concrete one-marker list. -/
theorem rank_total_nonempty_witness :
    ([wPoint] : List Point) ≠ [] ∧ wObsOn.enabled = true ∧
    (∃ n, rank [wPoint] wObsOn = Except.ok (rankedOf [wPoint] wObsOn, some n)) :=
  ⟨by simp, rfl, rank_total_nonempty [wPoint] wObsOn (by simp) rfl⟩

/-- Claim C6: `haversineDistance` computes exactly the haversine formula the
specification states: degrees to radians, a = sin²(Δlat/2) +
cos(lat1)·cos(lat2)·sin²(Δlon/2), c = 2·atan2(√a, √(1−a)), result 6371·c. -/
theorem haversineDistance_eq_spec (p q : ℝ × ℝ) :
    haversineDistance p q = distanceSpec p q := by
  simp only [haversineDistance, distanceSpec, toRad]
  have h1 : (q.1 - p.1) * Real.pi / 180 = q.1 * Real.pi / 180 - p.1 * Real.pi / 180 := by
    ring
  have h2 : (q.2 - p.2) * Real.pi / 180 = q.2 * Real.pi / 180 - p.2 * Real.pi / 180 := by
    ring
  rw [h1, h2]
  ring_nf

/-- Claim C7: the haversine distance is symmetric in its two arguments. -/
theorem haversineDistance_symm (p q : ℝ × ℝ) :
    haversineDistance p q = haversineDistance q p := by
  simp only [haversineDistance, toRad]
  have h1 : (q.1 - p.1) * Real.pi / 180 / 2 = -((p.1 - q.1) * Real.pi / 180 / 2) := by
    ring
  have h2 : (q.2 - p.2) * Real.pi / 180 / 2 = -((p.2 - q.2) * Real.pi / 180 / 2) := by
    ring
  rw [h1, h2]
  simp only [Real.sin_neg]
  ring_nf

/-- Claim C8: the haversine distance from any coordinate to itself is 0. -/
theorem haversineDistance_self (p : ℝ × ℝ) : haversineDistance p p = 0 := by
  simp [haversineDistance, toRad, atan2]
